import Mathlib

/-!
Verification development for the pamplemousse proof checker.

The proposition data model is embedded from `props.py`, the unification
engine, tree diffing and rewrite driver from `unification.py`, and the
proof/context checking algorithm from `proof.py`.

Python's mutable default arguments for `unify`'s two substitution maps are
modelled explicitly: the module-level default dictionaries are threaded
through every call as the `ds`/`dv` components of the state, and the
boolean flags `sd`/`vd` record whether the current call is executing on
the default dictionaries (as happens for the recursive call
`unify(xp, xq)` in the predicate case, which omits both map arguments) or
on caller-supplied maps `s`/`v`.  Within `unification.py` the two
defaulted parameters are always omitted together, so the two flags are
always set together.
-/

/-- The `Prop` tagged union of `props.py`: ground atoms (`BaseProp`),
formula holes (`PropHole`), domain references (`ModelRef`), reference
holes (`ModelRefHole`), the binary connectives, the two quantifiers,
predicates (whose `name` is a `BaseProp`, represented by its string), and
the boolean literals.  Structural equality, as for frozen dataclasses. -/
inductive Prp where
  | base (name : String)
  | propHole (name : String)
  | modelRef (name : String)
  | modelRefHole (name : String)
  | and (p q : Prp)
  | or (p q : Prp)
  | imp (p q : Prp)
  | fa (var formula : Prp)
  | ex (var formula : Prp)
  | pred (name : String) (args : List Prp)
  | boolLit (b : Bool)

mutual

/-- Structural equality on `Prp` (the frozen-dataclass `==` of
`props.py`), written out because `deriving DecidableEq` does not handle
the nested `List Prp` in `pred`. -/
def Prp.beq : Prp → Prp → Bool
  | .base a, .base b => a == b
  | .propHole a, .propHole b => a == b
  | .modelRef a, .modelRef b => a == b
  | .modelRefHole a, .modelRefHole b => a == b
  | .and p1 p2, .and q1 q2 => Prp.beq p1 q1 && Prp.beq p2 q2
  | .or p1 p2, .or q1 q2 => Prp.beq p1 q1 && Prp.beq p2 q2
  | .imp p1 p2, .imp q1 q2 => Prp.beq p1 q1 && Prp.beq p2 q2
  | .fa v1 f1, .fa v2 f2 => Prp.beq v1 v2 && Prp.beq f1 f2
  | .ex v1 f1, .ex v2 f2 => Prp.beq v1 v2 && Prp.beq f1 f2
  | .pred n1 a1, .pred n2 a2 => n1 == n2 && Prp.beqList a1 a2
  | .boolLit b1, .boolLit b2 => b1 == b2
  | _, _ => false
termination_by structural p => p

def Prp.beqList : List Prp → List Prp → Bool
  | [], [] => true
  | x :: xs, y :: ys => Prp.beq x y && Prp.beqList xs ys
  | _, _ => false
termination_by structural ps => ps

end

theorem Prp.beq_refl_all (n : Nat) :
    (∀ p : Prp, sizeOf p ≤ n → Prp.beq p p = true) ∧
    (∀ ps : List Prp, sizeOf ps ≤ n → Prp.beqList ps ps = true) := by
  induction n using Nat.strong_induction_on with
  | _ n ih =>
    have ihP : ∀ p : Prp, sizeOf p < n → Prp.beq p p = true :=
      fun p h => (ih (sizeOf p) h).1 p le_rfl
    have ihL : ∀ ps : List Prp, sizeOf ps < n → Prp.beqList ps ps = true :=
      fun ps h => (ih (sizeOf ps) h).2 ps le_rfl
    constructor
    · intro p hsz
      cases p <;> simp only [Prp.beq, Bool.and_eq_true, beq_self_eq_true] <;>
        simp at hsz <;>
        refine ⟨?_, ?_⟩ <;> first
          | exact ihP _ (by omega)
          | exact ihL _ (by omega)
          | trivial
    · intro ps hsz
      cases ps with
      | nil => simp [Prp.beqList]
      | cons x xs =>
        simp only [Prp.beqList, Bool.and_eq_true]
        simp at hsz
        exact ⟨ihP x (by omega), ihL xs (by omega)⟩

theorem Prp.beq_sound_all (n : Nat) :
    (∀ p q : Prp, sizeOf p ≤ n → Prp.beq p q = true → p = q) ∧
    (∀ ps qs : List Prp, sizeOf ps ≤ n → Prp.beqList ps qs = true → ps = qs) := by
  induction n using Nat.strong_induction_on with
  | _ n ih =>
    have ihP : ∀ p q : Prp, sizeOf p < n → Prp.beq p q = true → p = q :=
      fun p q h => (ih (sizeOf p) h).1 p q le_rfl
    have ihL : ∀ ps qs : List Prp, sizeOf ps < n → Prp.beqList ps qs = true → ps = qs :=
      fun ps qs h => (ih (sizeOf ps) h).2 ps qs le_rfl
    constructor
    · intro p q hsz hbeq
      cases p <;> cases q <;>
        simp only [Prp.beq, Bool.and_eq_true, beq_iff_eq] at hbeq <;>
        (try simp at hsz) <;>
        first
          | rfl
          | (cases hbeq <;> rfl)
          | (obtain ⟨h1, h2⟩ := hbeq
             first
               | (exact congrArg₂ _ (ihP _ _ (by omega) h1) (ihP _ _ (by omega) h2))
               | (cases h1; exact congrArg _ (ihL _ _ (by omega) h2)))
    · intro ps qs hsz hbeq
      cases ps <;> cases qs <;>
        simp only [Prp.beqList, Bool.and_eq_true] at hbeq <;>
        (try simp at hsz) <;>
        first
          | rfl
          | (cases hbeq <;> rfl)
          | (obtain ⟨h1, h2⟩ := hbeq
             exact congrArg₂ _ (ihP _ _ (by omega) h1) (ihL _ _ (by omega) h2))

theorem Prp.beq_refl (p : Prp) : Prp.beq p p = true :=
  (Prp.beq_refl_all (sizeOf p)).1 p le_rfl

theorem Prp.beq_sound {p q : Prp} (h : Prp.beq p q = true) : p = q :=
  (Prp.beq_sound_all (sizeOf p)).1 p q le_rfl h

instance : DecidableEq Prp := fun p q =>
  if h : Prp.beq p q = true then isTrue (Prp.beq_sound h)
  else isFalse fun he => h (by rw [he]; exact Prp.beq_refl q)

instance : DecidableEq (List (String × Prp)) := inferInstance

/-- A substitution map (`Dict[str, Prop]`), as an association list with
first-match lookup; keys are inserted only when absent, matching Python
dictionary behaviour for this code. -/
abbrev Smap := List (String × Prp)

def alookup (k : String) : Smap → Option Prp
  | [] => none
  | (k', x) :: rest => if k' = k then some x else alookup k rest

def isPropHole : Prp → Bool
  | .propHole _ => true
  | _ => false

def isModelRefHole : Prp → Bool
  | .modelRefHole _ => true
  | _ => false

def isModelRef : Prp → Bool
  | .modelRef _ => true
  | _ => false

def propHoleName : Prp → String
  | .propHole n => n
  | _ => ""

def refHoleName : Prp → String
  | .modelRefHole n => n
  | _ => ""

mutual

/-- `unify` from `unification.py` (lines 15-97).  State: `s`/`v` are the
caller-supplied `subst`/`var_subst` maps, `ds`/`dv` the module-level
default dictionaries; `sd`/`vd` say whether the current invocation is
running on the defaults (both are `true` exactly for the recursive call
in the predicate case, which omits both arguments).  The result is
`(return value, s, v, ds, dv)`.

Notes kept from the source: the `PropHole`-vs-`PropHole` `assert False`
at lines 75-76 is unreachable, because the first branch (line 20) already
fires whenever either side is a `PropHole`; and the final
`assert type(p) != type(q)` (line 96) always holds on the fall-through
cases, so the final branch simply returns `False`. -/
def unify (p q : Prp) (sd vd : Bool) (s v ds dv : Smap) :
    Bool × Smap × Smap × Smap × Smap :=
  if isPropHole p || isPropHole q then
    -- lines 19-35: either side a formula hole
    let hole := if isPropHole p then propHoleName p else propHoleName q
    let exp := if isPropHole p then q else p
    match alookup hole (if sd then ds else s) with
    | some e => (decide (e = exp), s, v, ds, dv)
    | none =>
      if sd then (true, s, v, (hole, exp) :: ds, dv)
      else (true, (hole, exp) :: s, v, ds, dv)
  else if isModelRefHole p || isModelRefHole q then
    -- lines 37-52: either side a reference hole
    let hole := if isModelRefHole p then refHoleName p else refHoleName q
    let exp := if isModelRefHole p then q else p
    if isModelRef exp then
      match alookup hole (if vd then dv else v) with
      | some e => (decide (e = exp), s, v, ds, dv)
      | none =>
        if vd then (true, s, v, ds, (hole, exp) :: dv)
        else (true, s, (hole, exp) :: v, ds, dv)
    else (false, s, v, ds, dv)
  else
    match p, q with
    | .and p1 p2, .and q1 q2 =>
      match unify p1 q1 sd vd s v ds dv with
      | (true, s1, v1, ds1, dv1) => unify p2 q2 sd vd s1 v1 ds1 dv1
      | (false, s1, v1, ds1, dv1) => (false, s1, v1, ds1, dv1)
    | .or p1 p2, .or q1 q2 =>
      match unify p1 q1 sd vd s v ds dv with
      | (true, s1, v1, ds1, dv1) => unify p2 q2 sd vd s1 v1 ds1 dv1
      | (false, s1, v1, ds1, dv1) => (false, s1, v1, ds1, dv1)
    | .imp p1 p2, .imp q1 q2 =>
      match unify p1 q1 sd vd s v ds dv with
      | (true, s1, v1, ds1, dv1) => unify p2 q2 sd vd s1 v1 ds1 dv1
      | (false, s1, v1, ds1, dv1) => (false, s1, v1, ds1, dv1)
    | .boolLit b1, .boolLit b2 => (decide (b1 = b2), s, v, ds, dv)
    | .base n1, .base n2 => (decide (n1 = n2), s, v, ds, dv)
    | .modelRef n1, .modelRef n2 => (decide (n1 = n2), s, v, ds, dv)
    | .fa v1 f1, .fa v2 f2 =>
      match unify v1 v2 sd vd s v ds dv with
      | (true, s1, v1', ds1, dv1) => unify f1 f2 sd vd s1 v1' ds1 dv1
      | (false, s1, v1', ds1, dv1) => (false, s1, v1', ds1, dv1)
    | .ex v1 f1, .ex v2 f2 =>
      match unify v1 v2 sd vd s v ds dv with
      | (true, s1, v1', ds1, dv1) => unify f1 f2 sd vd s1 v1' ds1 dv1
      | (false, s1, v1', ds1, dv1) => (false, s1, v1', ds1, dv1)
    | .pred n1 a1, .pred n2 a2 =>
      if n1 = n2 ∧ a1.length = a2.length then
        -- line 93: `all(unify(xp, xq) for ...)` omits both map arguments,
        -- so the recursion runs on the module-level default dictionaries.
        let r := unifyArgs a1 a2 ds dv
        (r.1, s, v, r.2.1, r.2.2)
      else (false, s, v, ds, dv)
    | _, _ => (false, s, v, ds, dv)
termination_by structural p

/-- The `all(unify(xp, xq) for xp, xq in zip(p.args, q.args))` of line 93:
short-circuiting conjunction over the zipped argument lists, each element
unified on the default dictionaries.  A length mismatch truncates as
`zip` does (the caller has already checked the lengths). -/
def unifyArgs (ps qs : List Prp) (ds dv : Smap) : Bool × Smap × Smap :=
  match ps, qs with
  | x :: xs, y :: ys =>
    match unify x y true true [] [] ds dv with
    | (true, _, _, ds1, dv1) => unifyArgs xs ys ds1 dv1
    | (false, _, _, ds1, dv1) => (false, ds1, dv1)
  | _, _ => (true, ds, dv)
termination_by structural ps

end

/-- `diff_tree` from `unification.py` (lines 100-140).  `none` models an
`AssertionError` (the internal-consistency assertions at lines 121 and
135); `some (a, b)` is a normal return of the differing pair. -/
def diff_tree : Prp → Prp → Option (Prp × Prp)
  | .and p1 p2, .and q1 q2 =>
    if p1 ≠ q1 ∧ p2 ≠ q2 then some (.and p1 p2, .and q1 q2)
    else if p1 = q1 then diff_tree p2 q2
    else if p2 = q2 then diff_tree p1 q1
    else none
  | .or p1 p2, .or q1 q2 =>
    if p1 ≠ q1 ∧ p2 ≠ q2 then some (.or p1 p2, .or q1 q2)
    else if p1 = q1 then diff_tree p2 q2
    else if p2 = q2 then diff_tree p1 q1
    else none
  | .imp p1 p2, .imp q1 q2 =>
    if p1 ≠ q1 ∧ p2 ≠ q2 then some (.imp p1 p2, .imp q1 q2)
    else if p1 = q1 then diff_tree p2 q2
    else if p2 = q2 then diff_tree p1 q1
    else none
  | .fa v1 f1, .fa v2 f2 =>
    if v1 = v2 then diff_tree f1 f2 else some (.fa v1 f1, .fa v2 f2)
  | .ex v1 f1, .ex v2 f2 =>
    if v1 = v2 then diff_tree f1 f2 else some (.ex v1 f1, .ex v2 f2)
  | .pred n1 a1, .pred n2 a2 =>
    -- line 135: `assert p != q`, then return the pair
    if Prp.pred n1 a1 = Prp.pred n2 a2 then none
    else some (.pred n1 a1, .pred n2 a2)
  | p, q => some (p, q)

/-- Result of `try_rewrite`: the bare `{}` returned on the reflexivity
fast path, a `(subst, var_subst)` pair on success, the `AssertionError`
raised by the inner `rewrite()` after both directions fail
(rule-not-applicable), or an `AssertionError` escaping from `diff_tree`. -/
inductive RWResult where
  | empty
  | substs (s v : Smap)
  | notApplicable
  | diffFailure
deriving DecidableEq

/-- The inner `rewrite()` closure of `try_rewrite` (lines 169-180): fresh
`subst`/`var_subst` dictionaries shared by the two `unify` calls, with
Python's short-circuiting `and`.  Returns the pair on success and `none`
for the `AssertionError`; the default dictionaries `ds`/`dv` persist
either way. -/
def rewriteStep (old_t new_t old_r new_r : Prp) (ds dv : Smap) :
    Option (Smap × Smap) × Smap × Smap :=
  match unify old_t old_r false false [] [] ds dv with
  | (true, s1, v1, ds1, dv1) =>
    match unify new_t new_r false false s1 v1 ds1 dv1 with
    | (true, s2, v2, ds2, dv2) => (some (s2, v2), ds2, dv2)
    | (false, _, _, ds2, dv2) => (none, ds2, dv2)
  | (false, _, _, ds1, dv1) => (none, ds1, dv1)

/-- `try_rewrite` from `unification.py` (lines 156-189): reflexivity fast
path, narrowing via `diff_tree`, one attempt per rule direction (the
second with the rule's components swapped), both with fresh substitution
dictionaries. -/
def try_rewrite (transformation : Prp × Prp) (rule : Prp × Prp)
    (ds dv : Smap) : RWResult × Smap × Smap :=
  if transformation.1 = transformation.2 then (.empty, ds, dv)
  else
    match diff_tree transformation.1 transformation.2 with
    | none => (.diffFailure, ds, dv)
    | some (old_t, new_t) =>
      match rewriteStep old_t new_t rule.1 rule.2 ds dv with
      | (some (s, v), ds1, dv1) => (.substs s v, ds1, dv1)
      | (none, ds1, dv1) =>
        match rewriteStep old_t new_t rule.2 rule.1 ds1 dv1 with
        | (some (s, v), ds2, dv2) => (.substs s v, ds2, dv2)
        | (none, ds2, dv2) => (.notApplicable, ds2, dv2)

mutual

/-- `true` iff the proposition contains no `PropHole` and no
`ModelRefHole` anywhere (including predicate arguments). -/
def holeFree : Prp → Bool
  | .propHole _ => false
  | .modelRefHole _ => false
  | .and p q => holeFree p && holeFree q
  | .or p q => holeFree p && holeFree q
  | .imp p q => holeFree p && holeFree q
  | .fa v f => holeFree v && holeFree f
  | .ex v f => holeFree v && holeFree f
  | .pred _ args => holeFreeList args
  | _ => true
termination_by structural p => p

def holeFreeList : List Prp → Bool
  | [] => true
  | x :: xs => holeFree x && holeFreeList xs
termination_by structural ps => ps

end

example : (unify (.propHole "a") (.propHole "b") false false [] [] [] []) =
    (true, [("a", .propHole "b")], [], [], []) := by decide

example : (unify (.modelRefHole "x") (.modelRefHole "x") false false [] [] [] []).1 = false := by
  decide

example : diff_tree (.base "A") (.base "A") = some (.base "A", .base "A") := by decide

example : (unify (.pred "P" [.modelRefHole "x"]) (.pred "P" [.modelRef "c"])
    false false [] [] [] []) = (true, [], [], [], [("x", .modelRef "c")]) := by decide

/-- `get_symbols` from `unification.py` (lines 260-288).  The two result
sets hold the `ModelRef` values occurring in predicate arguments and the
quantifier-bound variables respectively (as `Prp` values, since Python
collects the objects themselves).  `none` models the
`assert isinstance(formula.var, ModelRef)` failure at line 278. -/
def get_symbols : Prp → Option (Finset Prp × Finset Prp)
  | .and p q =>
    match get_symbols p, get_symbols q with
    | some (ls, lv), some (rs, rv) => some (ls ∪ rs, lv ∪ rv)
    | _, _ => none
  | .or p q =>
    match get_symbols p, get_symbols q with
    | some (ls, lv), some (rs, rv) => some (ls ∪ rs, lv ∪ rv)
    | _, _ => none
  | .imp p q =>
    match get_symbols p, get_symbols q with
    | some (ls, lv), some (rs, rv) => some (ls ∪ rs, lv ∪ rv)
    | _, _ => none
  | .fa v f =>
    if isModelRef v then
      match get_symbols f with
      | some (sym, var) => some (sym ∪ {v}, var ∪ {v})
      | none => none
    else none
  | .ex v f =>
    if isModelRef v then
      match get_symbols f with
      | some (sym, var) => some (sym ∪ {v}, var ∪ {v})
      | none => none
    else none
  | .pred _ args => some (args.toFinset, ∅)
  | _ => some (∅, ∅)

/-- A proof line (`Line` in `proof.py`).  `num` and `typ` are the line
number and asserted proposition.

Modelled from the spec: `arguments.py` is not part of the sources, so the
justification object is abstracted by the data `Context.check` and
`Proof.compile` actually consult: `justName` is `just.name` (the
uninterpreted justification's rule name, `"prem"` for premises);
`isHyp` records whether interpreting the justification yields a
`Hypothesis` argument (spec 4.5: justifications are a closed variant
{premise, hypothesis, rewrite-citation, uninterpreted-citation});
`checkOk` abstracts `Line.check` — resolving the justification and
running `Argument.verify(line, constants)` (spec 3: contract
`verify(line, constants) -> bool`) — as a predicate of the current
constant set, `true` iff no verification failure is raised. -/
structure Line where
  num : Nat
  typ : Prp
  justName : String
  isHyp : Bool
  checkOk : Finset Prp → Bool

/-- A proof scope (`Proof` in `proof.py`): its lines, in insertion
order of the `Dict[int, Line]`. -/
structure ProofObj where
  lines : List Line

/-- `Proof.compile` (lines 67-85 of `proof.py`), minus the registration
side effect (performed by the caller in this model): every
hypothesis-justified line's proposition joins the assumption set, every
line's proposition joins the result set. -/
def ProofObj.compile (pf : ProofObj) : Finset Prp × Finset Prp :=
  (((pf.lines.filter (fun l => l.isHyp)).map (fun l => l.typ)).toFinset,
   (pf.lines.map (fun l => l.typ)).toFinset)

/-- The registry of compiled proof types (`Context.proof_types`), keyed by
the proof's sorted line-number tuple (the key of `Context.proofs`). -/
def lookupKey : List (List Nat × (Finset Prp × Finset Prp)) → List Nat →
    Option (Finset Prp × Finset Prp)
  | [], _ => none
  | (k, x) :: rest, key => if k = key then some x else lookupKey rest key

/-- The mutable state of one `Context.check()` run: the constant set, the
`lines_checked` set, the keys of `remaining_proofs`, and the
`proof_types` registry. -/
structure CheckState where
  constants : Finset Prp
  checked : Finset Nat
  remaining : List (List Nat)
  proofTypes : List (List Nat × (Finset Prp × Finset Prp))

/-- The per-line scan at lines 155-160 of `proof.py`: compile and
register every remaining proof whose line-number set is a subset of the
checked set, and drop it from the remaining set. -/
def compileReady : List (List Nat × ProofObj) → CheckState → CheckState
  | [], st => st
  | (key, pf) :: rest, st =>
    if key ∈ st.remaining ∧ key.toFinset ⊆ st.checked then
      compileReady rest
        { st with remaining := st.remaining.erase key,
                  proofTypes := st.proofTypes ++ [(key, pf.compile)] }
    else compileReady rest st

/-- The main loop of `Context.check()` (lines 147-160): for each line in
order, run its check against the current constants, extract its symbols,
grow the constant set by the ground symbols, mark the line checked, and
compile every newly completed proof.  Returns the success flag and the
list of states after each completed line (a verification failure aborts
the run, as the `AssertionError` handler at lines 163-166 does). -/
def runLines (proofs : List (List Nat × ProofObj)) :
    List Line → CheckState → Bool × List CheckState
  | [], _ => (true, [])
  | l :: rest, st =>
    if l.checkOk st.constants then
      match get_symbols l.typ with
      | none => (false, [])
      | some (sym, var) =>
        let st2 := compileReady proofs
          { st with constants := st.constants ∪ (sym \ var),
                    checked := insert l.num st.checked }
        let r := runLines proofs rest st2
        (r.1, st2 :: r.2)
    else (false, [])

/-- The constant-seeding loop of `Context.check()` (lines 142-145): for
every line justified `"prem"`, union its ground symbols (symbols minus
quantifier-bound variables) into the constant set.  `none` models a
`get_symbols` assertion failure aborting the run. -/
def seedConstants : List Line → Finset Prp → Option (Finset Prp)
  | [], cs => some cs
  | l :: rest, cs =>
    if l.justName = "prem" then
      match get_symbols l.typ with
      | none => none
      | some (sym, var) => seedConstants rest (cs ∪ (sym \ var))
    else seedConstants rest cs

/-- The union, over all `"prem"` lines, of their ground symbols
(symbols minus quantifier-bound variables). -/
def premGround : List Line → Finset Prp
  | [] => ∅
  | l :: rest =>
    (if l.justName = "prem" then
      match get_symbols l.typ with
      | some (sym, var) => sym \ var
      | none => ∅
     else ∅) ∪ premGround rest

def insertByNum (a : Line) : List Line → List Line
  | [] => [a]
  | b :: bs => if a.num ≤ b.num then a :: b :: bs else b :: insertByNum a bs

/-- `sorted(self.lines.keys())` projected onto the lines: the context's
lines in ascending line-number order. -/
def sortByNum (ls : List Line) : List Line := ls.foldr insertByNum []

def insertNum (a : Nat) : List Nat → List Nat
  | [] => [a]
  | b :: bs => if a ≤ b then a :: b :: bs else b :: insertNum a bs

def sortNums (ns : List Nat) : List Nat := ns.foldr insertNum []

/-- The `Context` of `proof.py`: the flat line table, the proof registry
keyed by each proof's sorted line-number tuple, the designated main
proof, the constant set and the compiled proof types. -/
structure Context where
  lines : List Line
  proofs : List (List Nat × ProofObj)
  mainProof : Option ProofObj
  constants : Finset Prp
  proofTypes : List (List Nat × (Finset Prp × Finset Prp))

/-- `Context.__init__`. -/
def Context.init : Context := ⟨[], [], none, ∅, []⟩

/-- `tuple(sorted(proof.lines.keys()))`. -/
def proofKey (pf : ProofObj) : List Nat := sortNums (pf.lines.map (fun l => l.num))

/-- One step of `self.lines.update(proof.lines)`: replace the line with
the same number if present, else append. -/
def upsertLine (ls : List Line) (l : Line) : List Line :=
  if ls.any (fun x => x.num == l.num) then
    ls.map (fun x => if x.num = l.num then l else x)
  else ls ++ [l]

/-- `self.proofs[key] = proof` on the registry. -/
def upsertProof (ps : List (List Nat × ProofObj)) (key : List Nat)
    (pf : ProofObj) : List (List Nat × ProofObj) :=
  if ps.any (fun e => e.1 == key) then
    ps.map (fun e => if e.1 = key then (key, pf) else e)
  else ps ++ [(key, pf)]

/-- `Context.add_proof` (lines 106-115 of `proof.py`). -/
def Context.add_proof (ctx : Context) (pf : ProofObj) : Context :=
  { ctx with lines := pf.lines.foldl upsertLine ctx.lines,
             proofs := upsertProof ctx.proofs (proofKey pf) pf,
             mainProof := some pf }

/-- `Context.check` (lines 127-166 of `proof.py`): `False` when no proof
was added; otherwise seed the constants from the premises, then run the
per-line loop in ascending line-number order.  Returns the flag and the
context with the final constants and compiled proof types. -/
def Context.check (ctx : Context) : Bool × Context :=
  match ctx.mainProof with
  | none => (false, ctx)
  | some _ =>
    let sorted := sortByNum ctx.lines
    match seedConstants sorted ctx.constants with
    | none => (false, ctx)
    | some cs =>
      let st0 : CheckState := ⟨cs, ∅, ctx.proofs.map Prod.fst, ctx.proofTypes⟩
      let r := runLines ctx.proofs sorted st0
      let stF := r.2.getLastD st0
      (r.1, { ctx with constants := stF.constants, proofTypes := stF.proofTypes })

/-! ## Helper lemmas about the unification engine -/

theorem isModelRef_iff (e : Prp) : isModelRef e = true ↔ ∃ nm, e = .modelRef nm := by
  cases e <;> simp [isModelRef]

theorem unify_refl_all (n : Nat) :
    (∀ p : Prp, sizeOf p ≤ n → holeFree p = true →
        ∀ sd vd s v ds dv, unify p p sd vd s v ds dv = (true, s, v, ds, dv)) ∧
    (∀ ps : List Prp, sizeOf ps ≤ n → holeFreeList ps = true →
        ∀ ds dv, unifyArgs ps ps ds dv = (true, ds, dv)) := by
  induction n using Nat.strong_induction_on with
  | _ n ih =>
    have ihP : ∀ p : Prp, sizeOf p < n → holeFree p = true →
        ∀ sd vd s v ds dv, unify p p sd vd s v ds dv = (true, s, v, ds, dv) :=
      fun p h => (ih (sizeOf p) h).1 p le_rfl
    have ihL : ∀ ps : List Prp, sizeOf ps < n → holeFreeList ps = true →
        ∀ ds dv, unifyArgs ps ps ds dv = (true, ds, dv) :=
      fun ps h => (ih (sizeOf ps) h).2 ps le_rfl
    constructor
    · intro p hsz hf sd vd s v ds dv
      cases p with
      | base nm => simp [unify, isPropHole, isModelRefHole]
      | propHole nm => simp [holeFree] at hf
      | modelRef nm => simp [unify, isPropHole, isModelRefHole]
      | modelRefHole nm => simp [holeFree] at hf
      | boolLit b => simp [unify, isPropHole, isModelRefHole]
      | and p1 p2 =>
        simp only [holeFree, Bool.and_eq_true] at hf
        simp at hsz
        simp [unify, isPropHole, isModelRefHole,
          ihP p1 (by omega) hf.1, ihP p2 (by omega) hf.2]
      | or p1 p2 =>
        simp only [holeFree, Bool.and_eq_true] at hf
        simp at hsz
        simp [unify, isPropHole, isModelRefHole,
          ihP p1 (by omega) hf.1, ihP p2 (by omega) hf.2]
      | imp p1 p2 =>
        simp only [holeFree, Bool.and_eq_true] at hf
        simp at hsz
        simp [unify, isPropHole, isModelRefHole,
          ihP p1 (by omega) hf.1, ihP p2 (by omega) hf.2]
      | fa v1 f1 =>
        simp only [holeFree, Bool.and_eq_true] at hf
        simp at hsz
        simp [unify, isPropHole, isModelRefHole,
          ihP v1 (by omega) hf.1, ihP f1 (by omega) hf.2]
      | ex v1 f1 =>
        simp only [holeFree, Bool.and_eq_true] at hf
        simp at hsz
        simp [unify, isPropHole, isModelRefHole,
          ihP v1 (by omega) hf.1, ihP f1 (by omega) hf.2]
      | pred nm args =>
        simp only [holeFree] at hf
        simp at hsz
        simp [unify, isPropHole, isModelRefHole, ihL args (by omega) hf]
    · intro ps hsz hf ds dv
      cases ps with
      | nil => rfl
      | cons x xs =>
        simp only [holeFreeList, Bool.and_eq_true] at hf
        simp at hsz
        show (match unify x x true true [] [] ds dv with
          | (true, _, _, ds1, dv1) => unifyArgs xs xs ds1 dv1
          | (false, _, _, ds1, dv1) => (false, ds1, dv1)) = (true, ds, dv)
        rw [ihP x (by omega) hf.1]
        simpa using ihL xs (by omega) hf.2 ds dv

theorem diff_tree_ne_some :
    ∀ (n : Nat) (p q : Prp), sizeOf p ≤ n → p ≠ q → ∃ r, diff_tree p q = some r := by
  intro n
  induction n using Nat.strong_induction_on with
  | _ n ih =>
    have ihD : ∀ p q : Prp, sizeOf p < n → p ≠ q → ∃ r, diff_tree p q = some r :=
      fun p q h => ih (sizeOf p) h p q le_rfl
    intro p q hsz hne
    cases p <;> cases q <;> try exact ⟨_, rfl⟩
    case and.and p1 p2 q1 q2 =>
      simp at hsz
      by_cases h1 : p1 = q1
      · subst h1
        have h2 : p2 ≠ q2 := fun h => hne (by rw [h])
        obtain ⟨r, hr⟩ := ihD p2 q2 (by omega) h2
        exact ⟨r, by simp [diff_tree, h2, hr]⟩
      · by_cases h2 : p2 = q2
        · subst h2
          obtain ⟨r, hr⟩ := ihD p1 q1 (by omega) h1
          exact ⟨r, by simp [diff_tree, h1, hr]⟩
        · exact ⟨(.and p1 p2, .and q1 q2), by simp [diff_tree, h1, h2]⟩
    case or.or p1 p2 q1 q2 =>
      simp at hsz
      by_cases h1 : p1 = q1
      · subst h1
        have h2 : p2 ≠ q2 := fun h => hne (by rw [h])
        obtain ⟨r, hr⟩ := ihD p2 q2 (by omega) h2
        exact ⟨r, by simp [diff_tree, h2, hr]⟩
      · by_cases h2 : p2 = q2
        · subst h2
          obtain ⟨r, hr⟩ := ihD p1 q1 (by omega) h1
          exact ⟨r, by simp [diff_tree, h1, hr]⟩
        · exact ⟨(.or p1 p2, .or q1 q2), by simp [diff_tree, h1, h2]⟩
    case imp.imp p1 p2 q1 q2 =>
      simp at hsz
      by_cases h1 : p1 = q1
      · subst h1
        have h2 : p2 ≠ q2 := fun h => hne (by rw [h])
        obtain ⟨r, hr⟩ := ihD p2 q2 (by omega) h2
        exact ⟨r, by simp [diff_tree, h2, hr]⟩
      · by_cases h2 : p2 = q2
        · subst h2
          obtain ⟨r, hr⟩ := ihD p1 q1 (by omega) h1
          exact ⟨r, by simp [diff_tree, h1, hr]⟩
        · exact ⟨(.imp p1 p2, .imp q1 q2), by simp [diff_tree, h1, h2]⟩
    case fa.fa v1 f1 v2 f2 =>
      simp at hsz
      by_cases h1 : v1 = v2
      · subst h1
        have h2 : f1 ≠ f2 := fun h => hne (by rw [h])
        obtain ⟨r, hr⟩ := ihD f1 f2 (by omega) h2
        exact ⟨r, by simp [diff_tree, hr]⟩
      · exact ⟨(.fa v1 f1, .fa v2 f2), by simp [diff_tree, h1]⟩
    case ex.ex v1 f1 v2 f2 =>
      simp at hsz
      by_cases h1 : v1 = v2
      · subst h1
        have h2 : f1 ≠ f2 := fun h => hne (by rw [h])
        obtain ⟨r, hr⟩ := ihD f1 f2 (by omega) h2
        exact ⟨r, by simp [diff_tree, hr]⟩
      · exact ⟨(.ex v1 f1, .ex v2 f2), by simp [diff_tree, h1]⟩
    case pred.pred n1 a1 n2 a2 =>
      exact ⟨(.pred n1 a1, .pred n2 a2), by simp [diff_tree, hne]⟩

/-- One-step reduction of `unify` when the left side is a reference
hole and the right side is not a formula hole. -/
theorem unify_refhole_left (h : String) (q : Prp) (hq : isPropHole q = false)
    (s v ds dv : Smap) :
    unify (.modelRefHole h) q false false s v ds dv =
      if isModelRef q then
        match alookup h v with
        | some e => (decide (e = q), s, v, ds, dv)
        | none => (true, s, (h, q) :: v, ds, dv)
      else (false, s, v, ds, dv) := by
  simp only [unify]
  rw [hq]
  simp [isPropHole, isModelRefHole, refHoleName]

/-- One-step reduction of `unify` when the right side is a reference
hole and the left side is neither kind of hole. -/
theorem unify_refhole_right (h : String) (p : Prp) (hp : isPropHole p = false)
    (hp2 : isModelRefHole p = false) (s v ds dv : Smap) :
    unify p (.modelRefHole h) false false s v ds dv =
      if isModelRef p then
        match alookup h v with
        | some e => (decide (e = p), s, v, ds, dv)
        | none => (true, s, (h, p) :: v, ds, dv)
      else (false, s, v, ds, dv) := by
  simp only [unify]
  rw [hp, hp2]
  simp [isPropHole, isModelRefHole, refHoleName]

/-! ## Claims C1-C7: the unification engine and rewrite driver -/

/-- C1 counterexample: the claim "for every proposition p, unify(p, p, s, v)
with fresh empty maps returns True and leaves both maps empty" fails at
p = ModelRefHole("x"): the reference-hole branch requires the opposing
side to be a concrete ModelRef, so self-unification of a reference hole
returns False. -/
theorem C1_cex :
    (unify (.modelRefHole "x") (.modelRefHole "x") false false [] [] [] []).1 = false := by
  decide

/-- C1 (amended): for every proposition p containing no formula holes and
no reference holes, a top-level `unify(p, p, s, v)` returns True and
leaves all four substitution maps (the caller's and the defaults)
unchanged — in particular fresh empty maps stay empty. -/
theorem C1_unify_refl_holeFree (p : Prp) (hf : holeFree p = true)
    (sd vd : Bool) (s v ds dv : Smap) :
    unify p p sd vd s v ds dv = (true, s, v, ds, dv) :=
  (unify_refl_all (sizeOf p)).1 p le_rfl hf sd vd s v ds dv

/-- C1 witness: a concrete hole-free proposition. -/
theorem C1_witness :
    holeFree (Prp.imp (.base "A") (.base "B")) = true ∧
    unify (Prp.imp (.base "A") (.base "B")) (Prp.imp (.base "A") (.base "B"))
      false false [] [] [] [] = (true, [], [], [], []) :=
  ⟨by decide, C1_unify_refl_holeFree _ (by decide) false false [] [] [] []⟩

/-- C2 counterexample: the claim "unify of two formula holes does not
succeed" is false — the formula-hole branch at line 20 fires before the
`assert False` at lines 75-76 can be reached, and unify(?a, ?b) with
fresh maps returns True (binding a to the hole ?b). -/
theorem C2_cex :
    (unify (.propHole "a") (.propHole "b") false false [] [] [] []).1 = true := by
  decide

/-- C2 (amended): unification of two formula holes is not a fatal
failure: it is handled entirely by the formula-hole branch, which binds
the left hole's name to the right-hand hole when unbound (succeeding)
and, when already bound, succeeds exactly when the binding equals the
right-hand hole.  The "unimplemented" assertion at lines 75-76 is dead
code. -/
theorem C2_hole_hole_amended (a b : String) (s v ds dv : Smap) :
    unify (.propHole a) (.propHole b) false false s v ds dv =
      match alookup a s with
      | some e => (decide (e = Prp.propHole b), s, v, ds, dv)
      | none => (true, (a, Prp.propHole b) :: s, v, ds, dv) := by
  cases h : alookup a s <;> simp [unify, isPropHole, propHoleName, h]

/-- C3: with neither side a formula hole and one side a reference hole
(named `hol`, facing expression `exp`, extracted with the source's
preference for the left side), a top-level unify succeeds iff `exp` is a
concrete domain reference that agrees with the hole's existing binding
when there is one; when unbound and concrete it binds the hole; and for
any non-`ModelRef` opposing expression (compound formula, boolean
literal, hole, ground atom) it returns False with all maps untouched. -/
theorem C3_refhole_spec (p q : Prp) (s v ds dv : Smap) (hol : String) (exp : Prp)
    (hnp : isPropHole p = false) (hnq : isPropHole q = false)
    (hcase : (p = .modelRefHole hol ∧ exp = q) ∨
             (isModelRefHole p = false ∧ q = .modelRefHole hol ∧ exp = p)) :
    (((unify p q false false s v ds dv).1 = true) ↔
       ((∃ nm, exp = .modelRef nm) ∧ ∀ b, alookup hol v = some b → b = exp)) ∧
    ((∃ nm, exp = .modelRef nm) → alookup hol v = none →
       unify p q false false s v ds dv = (true, s, (hol, exp) :: v, ds, dv)) ∧
    ((∀ nm, exp ≠ .modelRef nm) →
       unify p q false false s v ds dv = (false, s, v, ds, dv)) := by
  have key : unify p q false false s v ds dv =
      if isModelRef exp then
        match alookup hol v with
        | some e => (decide (e = exp), s, v, ds, dv)
        | none => (true, s, (hol, exp) :: v, ds, dv)
      else (false, s, v, ds, dv) := by
    rcases hcase with ⟨hp1, he⟩ | ⟨hm, hq2, he⟩
    · subst hp1; subst he; exact unify_refhole_left hol _ hnq s v ds dv
    · subst hq2; subst he; exact unify_refhole_right hol _ hnp hm s v ds dv
  by_cases hm : isModelRef exp = true
  · obtain ⟨nm, he⟩ := (isModelRef_iff exp).mp hm
    refine ⟨?_, ?_, ?_⟩
    · rw [key, if_pos hm]
      cases hl : alookup hol v with
      | none => subst he; simp [hl]
      | some e => subst he; simp [hl]
    · intro _ hl
      rw [key, if_pos hm, hl]
    · intro hno
      exact absurd he (hno nm)
  · have hno : ∀ nm, exp ≠ .modelRef nm := by
      intro nm he; exact hm ((isModelRef_iff exp).mpr ⟨nm, he⟩)
    refine ⟨?_, ?_, ?_⟩
    · rw [key, if_neg hm]
      constructor
      · intro h; simp at h
      · rintro ⟨⟨nm, he⟩, -⟩; exact absurd he (hno nm)
    · rintro ⟨nm, he⟩ _; exact absurd he (hno nm)
    · intro _; rw [key, if_neg hm]
  
/-- C3 witness: an unbound reference hole against the concrete domain
reference c, on fresh maps. -/
theorem C3_witness :
    isPropHole (Prp.modelRefHole "x") = false ∧
    isPropHole (Prp.modelRef "c") = false ∧
    ((((unify (Prp.modelRefHole "x") (Prp.modelRef "c") false false [] [] [] []).1 = true) ↔
       ((∃ nm, Prp.modelRef "c" = Prp.modelRef nm) ∧
        ∀ b, alookup "x" [] = some b → b = Prp.modelRef "c")) ∧
     ((∃ nm, Prp.modelRef "c" = Prp.modelRef nm) → alookup "x" [] = none →
       unify (Prp.modelRefHole "x") (Prp.modelRef "c") false false [] [] [] [] =
         (true, [], [("x", Prp.modelRef "c")], [], [])) ∧
     ((∀ nm, Prp.modelRef "c" ≠ Prp.modelRef nm) →
       unify (Prp.modelRefHole "x") (Prp.modelRef "c") false false [] [] [] [] =
         (false, [], [], [], []))) :=
  ⟨by decide, by decide,
   C3_refhole_spec (Prp.modelRefHole "x") (Prp.modelRef "c") [] [] [] [] "x"
     (Prp.modelRef "c") (by decide) (by decide) (Or.inl ⟨rfl, rfl⟩)⟩

/-- C4 counterexample: the claim "same binary connective with both
operands differing makes diff_tree fail, and diff_tree on equal trees
fails" is doubly false: diff_tree(And(A,B), And(C,D)) returns the pair
normally (this is how commutativity rewrites are localized), and
diff_tree(A, A) on equal atoms returns (A, A) normally. -/
theorem C4_cex :
    diff_tree (.and (.base "A") (.base "B")) (.and (.base "C") (.base "D")) =
      some (.and (.base "A") (.base "B"), .and (.base "C") (.base "D")) ∧
    diff_tree (.base "A") (.base "A") = some (.base "A", .base "A") := by
  decide

def isPredicate : Prp → Bool
  | .pred _ _ => true
  | _ => false

/-- The proposition reached from `p` by repeatedly taking the right
operand of a binary connective and the body of a quantifier: on two
structurally equal inputs, `diff_tree` recurses along exactly this
spine (the left components are equal, so lines 115-116 send it right,
and lines 128-129 send it into the body). -/
def rightSpineLeaf : Prp → Prp
  | .and _ p2 => rightSpineLeaf p2
  | .or _ p2 => rightSpineLeaf p2
  | .imp _ p2 => rightSpineLeaf p2
  | .fa _ f => rightSpineLeaf f
  | .ex _ f => rightSpineLeaf f
  | p => p

/-- On structurally equal inputs `diff_tree` walks the right spine and
fails (the line-135 `assert p != q`) exactly when the leaf of that spine
is a Predicate; otherwise it returns that equal leaf pair normally. -/
theorem diff_tree_self_all (n : Nat) : ∀ p : Prp, sizeOf p ≤ n →
    diff_tree p p =
      if isPredicate (rightSpineLeaf p) then none
      else some (rightSpineLeaf p, rightSpineLeaf p) := by
  induction n using Nat.strong_induction_on with
  | _ n ih =>
    intro p hsz
    cases p with
    | and p1 p2 =>
      simp at hsz
      simp [diff_tree, rightSpineLeaf, ih (sizeOf p2) (by omega) p2 le_rfl]
    | or p1 p2 =>
      simp at hsz
      simp [diff_tree, rightSpineLeaf, ih (sizeOf p2) (by omega) p2 le_rfl]
    | imp p1 p2 =>
      simp at hsz
      simp [diff_tree, rightSpineLeaf, ih (sizeOf p2) (by omega) p2 le_rfl]
    | fa v1 f1 =>
      simp at hsz
      simp [diff_tree, rightSpineLeaf, ih (sizeOf f1) (by omega) f1 le_rfl]
    | ex v1 f1 =>
      simp at hsz
      simp [diff_tree, rightSpineLeaf, ih (sizeOf f1) (by omega) f1 le_rfl]
    | pred nm args => simp [diff_tree, rightSpineLeaf, isPredicate]
    | base nm => simp [diff_tree, rightSpineLeaf, isPredicate]
    | propHole nm => simp [diff_tree, rightSpineLeaf, isPredicate]
    | modelRef nm => simp [diff_tree, rightSpineLeaf, isPredicate]
    | modelRefHole nm => simp [diff_tree, rightSpineLeaf, isPredicate]
    | boolLit b => simp [diff_tree, rightSpineLeaf, isPredicate]

/-- C4 (amended): when both operands of a same-connective pair differ,
diff_tree returns the pair itself (so the internal-consistency assertion
in that branch can never fire, since reaching it would need both
"not both differ" and each side to differ); and diff_tree reached with
p structurally equal to q recurses down the right spine (the right
operands of binary connectives and the bodies of quantifiers) and
surfaces an internal consistency failure (the line-135 `assert p != q`)
exactly when the proposition at the end of that spine is a Predicate —
otherwise it returns that structurally equal leaf pair normally. -/
theorem C4_diff_tree_amended (p1 p2 q1 q2 : Prp) (h1 : p1 ≠ q1) (h2 : p2 ≠ q2) :
    diff_tree (.and p1 p2) (.and q1 q2) = some (.and p1 p2, .and q1 q2) ∧
    diff_tree (.or p1 p2) (.or q1 q2) = some (.or p1 p2, .or q1 q2) ∧
    diff_tree (.imp p1 p2) (.imp q1 q2) = some (.imp p1 p2, .imp q1 q2) ∧
    ∀ p : Prp, diff_tree p p =
      if isPredicate (rightSpineLeaf p) then none
      else some (rightSpineLeaf p, rightSpineLeaf p) := by
  refine ⟨by simp [diff_tree, h1, h2], by simp [diff_tree, h1, h2],
          by simp [diff_tree, h1, h2], ?_⟩
  intro p
  exact diff_tree_self_all (sizeOf p) p le_rfl

/-- C4 witness. -/
theorem C4_witness :
    (Prp.base "A" ≠ Prp.base "C") ∧ (Prp.base "B" ≠ Prp.base "D") ∧
    diff_tree (.and (.base "A") (.base "B")) (.and (.base "C") (.base "D")) =
      some (.and (.base "A") (.base "B"), .and (.base "C") (.base "D")) :=
  ⟨by decide, by decide,
   (C4_diff_tree_amended (.base "A") (.base "B") (.base "C") (.base "D")
     (by decide) (by decide)).1⟩

/-- C5: the reflexivity fast path: for every proposition p and every
rule, try_rewrite((p, p), rule) immediately returns the bare empty
substitution dictionary; the result does not depend on the rule and the
default dictionaries are untouched — in particular `diff_tree` is never
consulted (the equation holds even for propositions, such as equal
predicates, on which `diff_tree` would fail). -/
theorem C5_refl_fast_path (p : Prp) (rule : Prp × Prp) (ds dv : Smap) :
    try_rewrite (p, p) rule ds dv = (RWResult.empty, ds, dv) := by
  simp [try_rewrite]

/-- C6: for old ≠ new, try_rewrite narrows via diff_tree (which always
returns a pair on unequal inputs), runs the inner rewrite() on the
rule's (left, right) with one shared pair of fresh substitution maps,
and on failure retries exactly once with the rule's sides swapped, again
on fresh maps; the result is the substitutions from whichever direction
unified, and the rule-not-applicable assertion failure when both
directions fail — never the reflexivity result. -/
theorem C6_rewrite_directions (old new L R : Prp) (ds dv : Smap) (hne : old ≠ new) :
    ∃ ot nt, diff_tree old new = some (ot, nt) ∧
      ((∃ s v ds1 dv1, rewriteStep ot nt L R ds dv = (some (s, v), ds1, dv1) ∧
          try_rewrite (old, new) (L, R) ds dv = (.substs s v, ds1, dv1)) ∨
       (∃ ds1 dv1 s v ds2 dv2, rewriteStep ot nt L R ds dv = (none, ds1, dv1) ∧
          rewriteStep ot nt R L ds1 dv1 = (some (s, v), ds2, dv2) ∧
          try_rewrite (old, new) (L, R) ds dv = (.substs s v, ds2, dv2)) ∨
       (∃ ds1 dv1 ds2 dv2, rewriteStep ot nt L R ds dv = (none, ds1, dv1) ∧
          rewriteStep ot nt R L ds1 dv1 = (none, ds2, dv2) ∧
          try_rewrite (old, new) (L, R) ds dv = (.notApplicable, ds2, dv2))) := by
  obtain ⟨⟨ot, nt⟩, hd⟩ := diff_tree_ne_some (sizeOf old) old new le_rfl hne
  refine ⟨ot, nt, hd, ?_⟩
  rcases h1 : rewriteStep ot nt L R ds dv with ⟨o1, ds1, dv1⟩
  cases o1 with
  | some sv =>
    obtain ⟨s, v⟩ := sv
    exact Or.inl ⟨s, v, ds1, dv1, rfl, by simp [try_rewrite, hne, hd, h1]⟩
  | none =>
    rcases h2 : rewriteStep ot nt R L ds1 dv1 with ⟨o2, ds2, dv2⟩
    cases o2 with
    | some sv =>
      obtain ⟨s, v⟩ := sv
      exact Or.inr (Or.inl ⟨ds1, dv1, s, v, ds2, dv2, rfl, h2,
        by simp [try_rewrite, hne, hd, h1, h2]⟩)
    | none =>
      exact Or.inr (Or.inr ⟨ds1, dv1, ds2, dv2, rfl, h2,
        by simp [try_rewrite, hne, hd, h1, h2]⟩)

/-- C7 (code-bug demonstration): substitution state is not local to one
top-level call.  Both calls below supply fresh empty caller maps, yet the
recursive `unify(xp, xq)` at line 93 omits the map arguments and so runs
on the module-level mutable default dictionaries: the first call leaves
x ↦ c in the default `var_subst`, making the second top-level call (on
an unrelated proposition pair) return False, although on clean defaults
it returns True. -/
theorem C7_default_map_leak :
    unify (.pred "P" [.modelRefHole "x"]) (.pred "P" [.modelRef "c"])
      false false [] [] [] [] = (true, [], [], [], [("x", Prp.modelRef "c")]) ∧
    (unify (.pred "P" [.modelRefHole "x"]) (.pred "P" [.modelRef "d"])
      false false [] [] [] [("x", Prp.modelRef "c")]).1 = false ∧
    (unify (.pred "P" [.modelRefHole "x"]) (.pred "P" [.modelRef "d"])
      false false [] [] [] []).1 = true := by
  decide

/-! ## Helper lemmas about the context-checking algorithm -/

theorem lookupKey_append_ne (ts : List (List Nat × (Finset Prp × Finset Prp)))
    (k key : List Nat) (x : Finset Prp × Finset Prp) (hne : k ≠ key) :
    lookupKey (ts ++ [(k, x)]) key = lookupKey ts key := by
  induction ts with
  | nil => simp [lookupKey, hne]
  | cons e rest ihr =>
    obtain ⟨k', x'⟩ := e
    by_cases hk : k' = key <;> simp [lookupKey, hk, ihr]

theorem lookupKey_append_self (ts : List (List Nat × (Finset Prp × Finset Prp)))
    (key : List Nat) (x : Finset Prp × Finset Prp)
    (h : lookupKey ts key = none) :
    lookupKey (ts ++ [(key, x)]) key = some x := by
  induction ts with
  | nil => simp [lookupKey]
  | cons e rest ihr =>
    obtain ⟨k', x'⟩ := e
    by_cases hk : k' = key
    · simp [lookupKey, hk] at h
    · simp only [lookupKey, hk] at h
      simp only [List.cons_append, lookupKey, hk, if_neg]
      exact ihr h

theorem compileReady_checked (ps : List (List Nat × ProofObj)) :
    ∀ st : CheckState, (compileReady ps st).checked = st.checked := by
  induction ps with
  | nil => intro st; rfl
  | cons e rest ihr =>
    intro st
    obtain ⟨key, pf⟩ := e
    simp only [compileReady]
    split <;> simp [ihr]

theorem compileReady_constants (ps : List (List Nat × ProofObj)) :
    ∀ st : CheckState, (compileReady ps st).constants = st.constants := by
  induction ps with
  | nil => intro st; rfl
  | cons e rest ihr =>
    intro st
    obtain ⟨key, pf⟩ := e
    simp only [compileReady]
    split <;> simp [ihr]

/-- `compileReady` does not disturb a proof that is already compiled
(registered and off the remaining list). -/
theorem compileReady_pres (ps : List (List Nat × ProofObj)) :
    ∀ (key : List Nat) (x : Finset Prp × Finset Prp) (st : CheckState),
      st.remaining.Nodup → key ∉ st.remaining →
      lookupKey st.proofTypes key = some x →
      (compileReady ps st).remaining.Nodup ∧
      key ∉ (compileReady ps st).remaining ∧
      lookupKey (compileReady ps st).proofTypes key = some x := by
  induction ps with
  | nil => intro key x st hnd h1 h2; exact ⟨hnd, h1, h2⟩
  | cons e rest ihr =>
    intro key x st hnd h1 h2
    obtain ⟨k, pf⟩ := e
    simp only [compileReady]
    split
    · rename_i hc
      have hkne : k ≠ key := fun he => h1 (he ▸ hc.1)
      refine ihr key x _ (hnd.erase k) ?_ ?_
      · intro hmem2; exact h1 (List.mem_of_mem_erase hmem2)
      · rw [lookupKey_append_ne _ _ _ _ hkne]; exact h2
    · exact ihr key x st hnd h1 h2

/-- `compileReady` does not touch a proof whose line set is not yet a
subset of the checked lines. -/
theorem compileReady_skip (ps : List (List Nat × ProofObj)) :
    ∀ (key : List Nat) (st : CheckState),
      st.remaining.Nodup → key ∈ st.remaining →
      lookupKey st.proofTypes key = none →
      ¬ key.toFinset ⊆ st.checked →
      (compileReady ps st).remaining.Nodup ∧
      key ∈ (compileReady ps st).remaining ∧
      lookupKey (compileReady ps st).proofTypes key = none := by
  induction ps with
  | nil => intro key st hnd h1 h2 h3; exact ⟨hnd, h1, h2⟩
  | cons e rest ihr =>
    intro key st hnd h1 h2 h3
    obtain ⟨k, pf⟩ := e
    simp only [compileReady]
    split
    · rename_i hc
      have hkne : k ≠ key := fun he => h3 (he ▸ hc.2)
      refine ihr key _ (hnd.erase k) ?_ ?_ h3
      · exact (List.mem_erase_of_ne (fun he => hkne he.symm)).mpr h1
      · rw [lookupKey_append_ne _ _ _ _ hkne]; exact h2
    · exact ihr key st hnd h1 h2 h3

/-- `compileReady` compiles and registers a proof exactly when its line
set has just become a subset of the checked lines: the proof is removed
from the remaining list and its compiled type appears in the registry. -/
theorem compileReady_fire (ps : List (List Nat × ProofObj)) :
    ∀ (key : List Nat) (pf : ProofObj) (st : CheckState),
      (key, pf) ∈ ps → (ps.map Prod.fst).Nodup →
      st.remaining.Nodup → key ∈ st.remaining →
      lookupKey st.proofTypes key = none →
      key.toFinset ⊆ st.checked →
      (compileReady ps st).remaining.Nodup ∧
      key ∉ (compileReady ps st).remaining ∧
      lookupKey (compileReady ps st).proofTypes key = some pf.compile := by
  induction ps with
  | nil => intro key pf st hmem; cases hmem
  | cons e rest ihr =>
    intro key pf st hmem hnd hrem h1 h2 h3
    obtain ⟨k, pf'⟩ := e
    simp only [List.map_cons, List.nodup_cons] at hnd
    by_cases hk : k = key
    · subst hk
      have hpf : pf' = pf := by
        rcases List.mem_cons.mp hmem with h | h
        · exact (Prod.mk.injEq _ _ _ _ ▸ h.symm).2.symm ▸ rfl
        · exact absurd (List.mem_map_of_mem Prod.fst h) hnd.1
      subst hpf
      simp only [compileReady]
      rw [if_pos ⟨h1, h3⟩]
      exact compileReady_pres rest k _ _ (hrem.erase k)
        (fun hmem2 => ((hrem.mem_erase_iff).mp hmem2).1 rfl)
        (lookupKey_append_self _ _ _ h2)
    · have hmem' : (key, pf) ∈ rest := by
        rcases List.mem_cons.mp hmem with h | h
        · exact absurd (congrArg Prod.fst h).symm hk
        · exact h
      simp only [compileReady]
      split
      · rename_i hc
        refine ihr key pf _ hmem' hnd.2 (hrem.erase k) ?_ ?_ h3
        · exact (List.mem_erase_of_ne (fun he => hk he.symm)).mpr h1
        · rw [lookupKey_append_ne _ _ _ _ hk]; exact h2
      · exact ihr key pf st hmem' hnd.2 hrem h1 h2 h3

/-- The registration invariant for one registered proof `(key, pf)`
during a `Context.check` run: the remaining list stays duplicate-free,
and the proof is compiled and registered (with exactly its
`Proof.compile` type) precisely when its line-number set is contained in
the checked set — before that it is still pending. -/
def RegInv (key : List Nat) (pf : ProofObj) (st : CheckState) : Prop :=
  st.remaining.Nodup ∧
  ((key ∈ st.remaining ∧ lookupKey st.proofTypes key = none ∧
      ¬ key.toFinset ⊆ st.checked) ∨
   (key ∉ st.remaining ∧ lookupKey st.proofTypes key = some pf.compile ∧
      key.toFinset ⊆ st.checked))

theorem RegInv_step (proofs : List (List Nat × ProofObj)) (key : List Nat)
    (pf : ProofObj) (st : CheckState) (cs : Finset Prp) (m : Nat)
    (hmem : (key, pf) ∈ proofs) (hnd : (proofs.map Prod.fst).Nodup)
    (hinv : RegInv key pf st) :
    RegInv key pf (compileReady proofs
      { st with constants := cs, checked := insert m st.checked }) := by
  obtain ⟨hnd0, hcase⟩ := hinv
  rcases hcase with ⟨h1, h2, h3⟩ | ⟨h1, h2, h3⟩
  · by_cases hsub : key.toFinset ⊆
        ({ st with constants := cs, checked := insert m st.checked } : CheckState).checked
    · obtain ⟨a, b, c⟩ := compileReady_fire proofs key pf
        { st with constants := cs, checked := insert m st.checked }
        hmem hnd hnd0 h1 h2 hsub
      exact ⟨a, Or.inr ⟨b, c, by rw [compileReady_checked]; exact hsub⟩⟩
    · obtain ⟨a, b, c⟩ := compileReady_skip proofs key
        { st with constants := cs, checked := insert m st.checked } hnd0 h1 h2 hsub
      exact ⟨a, Or.inl ⟨b, c, by rw [compileReady_checked]; exact hsub⟩⟩
  · obtain ⟨a, b, c⟩ := compileReady_pres proofs key _
        { st with constants := cs, checked := insert m st.checked } hnd0 h1 h2
    refine ⟨a, Or.inr ⟨b, c, ?_⟩⟩
    rw [compileReady_checked]
    exact h3.trans (Finset.subset_insert _ _)

theorem runLines_RegInv (proofs : List (List Nat × ProofObj)) (key : List Nat)
    (pf : ProofObj)
    (hmem : (key, pf) ∈ proofs) (hnd : (proofs.map Prod.fst).Nodup) :
    ∀ (lines : List Line) (st : CheckState), RegInv key pf st →
      ∀ st' ∈ (runLines proofs lines st).2, RegInv key pf st' := by
  intro lines
  induction lines with
  | nil => intro st _ st' h; simp [runLines] at h
  | cons l rest ihr =>
    intro st hinv st' hst'
    by_cases hck : l.checkOk st.constants
    · cases hg : get_symbols l.typ with
      | none => simp [runLines, hck, hg] at hst'
      | some sv =>
        obtain ⟨sym, var⟩ := sv
        simp only [runLines, hck, hg, if_true, List.mem_cons] at hst'
        have hstep := RegInv_step proofs key pf st (st.constants ∪ (sym \ var))
          l.num hmem hnd hinv
        rcases hst' with h | h
        · rw [h]; exact hstep
        · exact ihr _ hstep st' h
    · simp [runLines, hck] at hst'

theorem compile_mem (pf : ProofObj) (x : Prp) :
    (x ∈ (ProofObj.compile pf).1 ↔ ∃ l ∈ pf.lines, l.isHyp = true ∧ l.typ = x) ∧
    (x ∈ (ProofObj.compile pf).2 ↔ ∃ l ∈ pf.lines, l.typ = x) := by
  constructor
  · simp [ProofObj.compile, List.mem_filter, and_assoc]
  · simp [ProofObj.compile]

/-- The nested scope of the C8 scenario: its only lines are a
hypothesis-justified line asserting H and a further line concluding C. -/
def lineH : Line := ⟨1, .base "H", "hyp", true, fun _ => true⟩

def lineC : Line := ⟨2, .base "C", "dm", false, fun _ => true⟩

def scopePf : ProofObj := ⟨[lineH, lineC]⟩

/-- C8: a proof compiles to (assumption set, conclusion set) where the
assumption set is exactly the propositions of its hypothesis-justified
lines and the conclusion set exactly the propositions of all its lines;
the nested scope assuming H and concluding C (and nothing else) compiles
to ({H}, {H, C}); and along any run of the per-line checking loop, a
registered proof's compiled type is in the registry precisely when every
one of its line numbers has been checked (it is compiled in the same
step in which its last line is checked, whatever the order of sibling
scopes in the registry), with the pending proof never registering early
and the compiled type never being removed. -/
theorem C8_compile_registration :
    (∀ (pf : ProofObj) (x : Prp),
        (x ∈ (ProofObj.compile pf).1 ↔ ∃ l ∈ pf.lines, l.isHyp = true ∧ l.typ = x) ∧
        (x ∈ (ProofObj.compile pf).2 ↔ ∃ l ∈ pf.lines, l.typ = x)) ∧
    ProofObj.compile scopePf = ({Prp.base "H"}, {Prp.base "H", Prp.base "C"}) ∧
    (∀ (proofs : List (List Nat × ProofObj)) (key : List Nat) (pf : ProofObj)
        (lines : List Line) (st : CheckState),
        (key, pf) ∈ proofs → (proofs.map Prod.fst).Nodup → RegInv key pf st →
        ∀ st' ∈ (runLines proofs lines st).2, RegInv key pf st') :=
  ⟨compile_mem, by decide, fun proofs key pf lines st hmem hnd hinv =>
    runLines_RegInv proofs key pf hmem hnd lines st hinv⟩

/-- C8 witness: running the checker over the scenario's two lines with
the scope registered under key [1, 2]; the invariant relates
registration to the checked set at every step. -/
theorem C8_witness :
    (([1, 2], scopePf) ∈ [([1, 2], scopePf)]) ∧
    ([([1, 2], scopePf)].map Prod.fst).Nodup ∧
    RegInv [1, 2] scopePf ⟨∅, ∅, [[1, 2]], []⟩ ∧
    ∀ st' ∈ (runLines [([1, 2], scopePf)] [lineH, lineC] ⟨∅, ∅, [[1, 2]], []⟩).2,
      RegInv [1, 2] scopePf st' := by
  have hinv : RegInv [1, 2] scopePf ⟨∅, ∅, [[1, 2]], []⟩ :=
    ⟨by decide, Or.inl ⟨List.mem_singleton.mpr rfl, rfl, by decide⟩⟩
  exact ⟨List.mem_singleton.mpr rfl, by decide, hinv,
    C8_compile_registration.2.2 _ _ _ _ _ (List.mem_singleton.mpr rfl)
      (by decide) hinv⟩

/-- The empty proof object (`Proof([])`). -/
def emptyPf : ProofObj := ⟨[]⟩

/-- C9 counterexample: a Context to which the empty proof has been added
contains zero lines, yet `Context.check` returns True — the only False
path for a line-less context is the "no proofs added" guard. -/
theorem C9_cex :
    (Context.init.add_proof emptyPf).lines = [] ∧
    (Context.check (Context.init.add_proof emptyPf)).1 = true :=
  ⟨rfl, rfl⟩

/-- C9 (amended): `Context.check()` returns False on a Context to which
no proof has been added (`main_proof` unset, hence zero lines); a
Context whose only added proof is empty also has zero lines but returns
True. -/
theorem C9_no_proof_false (ctx : Context) (h : ctx.mainProof = none) :
    (Context.check ctx).1 = false := by
  simp [Context.check, h]

/-- C9 witness: the freshly initialized Context. -/
theorem C9_witness :
    Context.init.mainProof = none ∧ (Context.check Context.init).1 = false :=
  ⟨rfl, C9_no_proof_false Context.init rfl⟩

theorem seedConstants_eq :
    ∀ (ls : List Line) (cs cs' : Finset Prp),
      seedConstants ls cs = some cs' → cs' = cs ∪ premGround ls := by
  intro ls
  induction ls with
  | nil =>
    intro cs cs' h
    simp only [seedConstants, Option.some.injEq] at h
    simp [premGround, ← h]
  | cons l rest ihr =>
    intro cs cs' h
    by_cases hj : l.justName = "prem"
    · cases hg : get_symbols l.typ with
      | none => simp [seedConstants, hj, hg] at h
      | some sv =>
        obtain ⟨sym, var⟩ := sv
        simp only [seedConstants, hj, if_true, hg] at h
        rw [ihr _ _ h]
        simp [premGround, hj, hg, Finset.union_assoc]
    · simp only [seedConstants, hj, if_false] at h
      rw [ihr _ _ h]
      simp [premGround, hj]

theorem runLines_constants_mono (proofs : List (List Nat × ProofObj)) :
    ∀ (lines : List Line) (st : CheckState),
      List.Pairwise (fun a b : CheckState => a.constants ⊆ b.constants)
        (st :: (runLines proofs lines st).2) := by
  intro lines
  induction lines with
  | nil => intro st; simp [runLines]
  | cons l rest ihr =>
    intro st
    by_cases hck : l.checkOk st.constants
    · cases hg : get_symbols l.typ with
      | none => simp [runLines, hck, hg]
      | some sv =>
        obtain ⟨sym, var⟩ := sv
        simp only [runLines, hck, hg, if_true]
        have hsub : st.constants ⊆ (compileReady proofs
            { st with constants := st.constants ∪ (sym \ var),
                      checked := insert l.num st.checked }).constants := by
          rw [compileReady_constants]
          exact Finset.subset_union_left
        rw [List.pairwise_cons]
        refine ⟨?_, ihr _⟩
        intro b hb
        rcases List.mem_cons.mp hb with h | h
        · rw [h]; exact hsub
        · exact hsub.trans ((List.pairwise_cons.mp (ihr _)).1 b h)
    · simp [runLines, hck]

/-- C10: the constant set is seeded, before any line is checked, with
exactly the union over all premise lines of their ground symbols
(symbols minus quantifier-bound variables) on top of the incoming set;
and across the per-line checking loop the constant set only grows: in
the sequence of states traversed by a run, every later state's constant
set contains every earlier one (each step only unions in new ground
symbols, and compiling scopes never touches the constants). -/
theorem C10_constants_monotone :
    (∀ (ls : List Line) (cs cs' : Finset Prp),
        seedConstants ls cs = some cs' → cs' = cs ∪ premGround ls) ∧
    (∀ (proofs : List (List Nat × ProofObj)) (lines : List Line) (st : CheckState),
        List.Pairwise (fun a b : CheckState => a.constants ⊆ b.constants)
          (st :: (runLines proofs lines st).2)) :=
  ⟨seedConstants_eq, runLines_constants_mono⟩

/-- A premise line over the predicate P(c), used as the C10 witness. -/
def premLineEx : Line := ⟨1, .pred "P" [.modelRef "c"], "prem", false, fun _ => true⟩

/-- C10 witness: seeding from the single premise P(c) with an empty
constant set yields exactly the ground symbol c. -/
theorem C10_witness :
    seedConstants [premLineEx] ∅ = some {Prp.modelRef "c"} ∧
    ({Prp.modelRef "c"} : Finset Prp) = ∅ ∪ premGround [premLineEx] :=
  ⟨by decide, C10_constants_monotone.1 [premLineEx] ∅ {Prp.modelRef "c"} (by decide)⟩

/-- C6 witness: the commutativity transformation B∨A ⇒ A∨B checked
against the or-commutativity rule (Or(?a,?b), Or(?b,?a)) on clean
default dictionaries. -/
theorem C6_witness :
    (Prp.or (.base "B") (.base "A") ≠ Prp.or (.base "A") (.base "B")) ∧
    (∃ ot nt,
      diff_tree (Prp.or (.base "B") (.base "A"))
          (Prp.or (.base "A") (.base "B")) = some (ot, nt) ∧
      ((∃ s v ds1 dv1,
          rewriteStep ot nt (Prp.or (.propHole "a") (.propHole "b"))
            (Prp.or (.propHole "b") (.propHole "a")) [] [] = (some (s, v), ds1, dv1) ∧
          try_rewrite (Prp.or (.base "B") (.base "A"), Prp.or (.base "A") (.base "B"))
            (Prp.or (.propHole "a") (.propHole "b"), Prp.or (.propHole "b") (.propHole "a"))
            [] [] = (.substs s v, ds1, dv1)) ∨
       (∃ ds1 dv1 s v ds2 dv2,
          rewriteStep ot nt (Prp.or (.propHole "a") (.propHole "b"))
            (Prp.or (.propHole "b") (.propHole "a")) [] [] = (none, ds1, dv1) ∧
          rewriteStep ot nt (Prp.or (.propHole "b") (.propHole "a"))
            (Prp.or (.propHole "a") (.propHole "b")) ds1 dv1 = (some (s, v), ds2, dv2) ∧
          try_rewrite (Prp.or (.base "B") (.base "A"), Prp.or (.base "A") (.base "B"))
            (Prp.or (.propHole "a") (.propHole "b"), Prp.or (.propHole "b") (.propHole "a"))
            [] [] = (.substs s v, ds2, dv2)) ∨
       (∃ ds1 dv1 ds2 dv2,
          rewriteStep ot nt (Prp.or (.propHole "a") (.propHole "b"))
            (Prp.or (.propHole "b") (.propHole "a")) [] [] = (none, ds1, dv1) ∧
          rewriteStep ot nt (Prp.or (.propHole "b") (.propHole "a"))
            (Prp.or (.propHole "a") (.propHole "b")) ds1 dv1 = (none, ds2, dv2) ∧
          try_rewrite (Prp.or (.base "B") (.base "A"), Prp.or (.base "A") (.base "B"))
            (Prp.or (.propHole "a") (.propHole "b"), Prp.or (.propHole "b") (.propHole "a"))
            [] [] = (.notApplicable, ds2, dv2)))) :=
  ⟨by decide, C6_rewrite_directions (Prp.or (.base "B") (.base "A"))
    (Prp.or (.base "A") (.base "B")) (Prp.or (.propHole "a") (.propHole "b"))
    (Prp.or (.propHole "b") (.propHole "a")) [] [] (by decide)⟩
